import Mathlib

/-!
Verification of the LC3plus fixed-point basic-operator library
(`src/fixed_point/basic_op/basop32.c`) and the attack detector
(`src/fixed_point/attack_detector_fx.c`).

Machine words are embedded as unbounded `Int` together with explicit
range predicates (`inW16`, `inW32`) and explicit wrapping (`wrap16`,
`wrap32`) at the points where the C code performs a narrowing cast or
relies on two's-complement wrap-around.  Fallible code (the `abort()`
calls in `div_s`, the `ASSERT` in `attack_detector_fx`) is embedded with
`Option`: `none` models a process abort that produces no numeric result.
-/

namespace Basop

/-- Largest 16-bit signed value (`MAX_16` in basop32.c). -/
def MAX_16 : Int := 32767

/-- Smallest 16-bit signed value (`MIN_16` in basop32.c). -/
def MIN_16 : Int := -32768

/-- Largest 32-bit signed value (`MAX_32` in basop32.c). -/
def MAX_32 : Int := 2147483647

/-- Smallest 32-bit signed value (`MIN_32` in basop32.c). -/
def MIN_32 : Int := -2147483648

/-- The value is representable as a 16-bit two's-complement word. -/
def inW16 (x : Int) : Prop := -32768 ≤ x ∧ x ≤ 32767

/-- The value is representable as a 32-bit two's-complement word. -/
def inW32 (x : Int) : Prop := -2147483648 ≤ x ∧ x ≤ 2147483647

instance (x : Int) : Decidable (inW16 x) := by unfold inW16; infer_instance

instance (x : Int) : Decidable (inW32 x) := by unfold inW32; infer_instance

/-- Two's-complement truncation to 16 bits: the effect of the C cast
`(Word16)x` on an `int` value `x`. -/
def wrap16 (x : Int) : Int := (x + 32768) % 65536 - 32768

/-- Two's-complement truncation to 32 bits: the effect of assigning an
overflowed value to a `Word32` (which the C source relies on only in the
sign tests of `L_add`/`L_sub`). -/
def wrap32 (x : Int) : Int := (x + 2147483648) % 4294967296 - 2147483648

/-- Function `saturate` of basop32.c (lines 253-279), returning the
clamped 16-bit value together with the function-local `Overflow`
indicator that the C code passes to the `BASOP_CHECK` diagnostic hook.
Note that the local `int Overflow` shadows the process-global
`Flag Overflow` declared at line 150; the global is never assigned. -/
def saturateF (L_var1 : Int) : Int × Bool :=
  if L_var1 > 32767 then (MAX_16, true)
  else if L_var1 < -32768 then (MIN_16, true)
  else (wrap16 L_var1, false)   -- `var_out = extract_l (L_var1)`

/-- Value component of `saturate`. -/
def saturate (L_var1 : Int) : Int := (saturateF L_var1).1

/-- Function `add` (basop32.c lines 315-327) with its local overflow
indicator: `L_sum = (Word32) var1 + var2; var_out = saturate (L_sum)`. -/
def addF (var1 var2 : Int) : Int × Bool := saturateF (var1 + var2)

/-- Function `add` of basop32.c (value only). -/
def add (var1 var2 : Int) : Int := (addF var1 var2).1

/-- Function `sub` (basop32.c lines 363-375) with its local overflow
indicator: `L_diff = (Word32) var1 - var2; var_out = saturate (L_diff)`. -/
def subF (var1 var2 : Int) : Int × Bool := saturateF (var1 - var2)

/-- Function `sub` of basop32.c (value only). -/
def sub (var1 var2 : Int) : Int := (subF var1 var2).1

/-- The else-branch of `shr` (basop32.c lines 553-600), i.e. `shr` for a
nonnegative shift count.  For `var2 >= 15` the C code returns `-1`/`0`
by sign; otherwise it computes an arithmetic right shift, written for
negative inputs as `~((~var1) >> var2)`; division of the nonnegative
operand `~var1 = -var1-1` by 2^var2 is exactly the C shift. -/
def shrPos (var1 var2 : Int) : Int :=
  if var2 ≥ 15 then (if var1 < 0 then -1 else 0)
  else if var1 < 0 then -((-var1 - 1) / 2 ^ var2.toNat) - 1
  else var1 / 2 ^ var2.toNat

/-- The else-branch of `shl` (basop32.c lines 473-516), i.e. `shl` for a
nonnegative shift count, together with the function-local overflow
indicator.  The C code computes `result = (Word32) var1 * (1 << var2)`
and saturates when `(var2 > 15 && var1 != 0)` or when the result does
not survive the round trip through a `(Word16)` cast (i.e. is not a
16-bit value). -/
def shlPosF (var1 var2 : Int) : Int × Bool :=
  let result := var1 * 2 ^ var2.toNat
  if (var2 > 15 ∧ var1 ≠ 0) ∨ ¬ inW16 result then
    ((if var1 > 0 then MAX_16 else MIN_16), true)
  else (wrap16 result, false)   -- `var_out = extract_l (result)`

/-- Function `shl` of basop32.c (lines 473-516) with its local overflow
indicator.  A negative count is clamped to `-16` and delegated to the
right-shift branch (which raises no overflow). -/
def shlF (var1 var2 : Int) : Int × Bool :=
  if var2 < 0 then (shrPos var1 (-(max var2 (-16))), false)
  else shlPosF var1 var2

/-- Function `shl` of basop32.c (value only). -/
def shl (var1 var2 : Int) : Int := (shlF var1 var2).1

/-- Function `shr` of basop32.c (lines 553-600).  A negative count is
clamped to `-16` and delegated to the left-shift branch. -/
def shr (var1 var2 : Int) : Int :=
  if var2 < 0 then (shlPosF var1 (-(max var2 (-16)))).1
  else shrPos var1 var2

/-- Function `L_mult` (basop32.c lines 692-716) with its local overflow
indicator: the doubled 16x16 product, saturating only at
`(-32768)*(-32768)` where the product equals `0x40000000`. -/
def L_multF (var1 var2 : Int) : Int × Bool :=
  let p := var1 * var2
  if p ≠ 1073741824 then (wrap32 (p * 2), false)
  else (MAX_32, true)

/-- Function `L_mult` of basop32.c (value only). -/
def L_mult (var1 var2 : Int) : Int := (L_multF var1 var2).1

/-- Function `L_add` (basop32.c lines 1048-1071) with its local overflow
indicator.  The C code adds with two's-complement wrap-around and tests
the sign bits: overflow iff the operands have equal signs and the
wrapped sum's sign differs. -/
def L_addF (L_var1 L_var2 : Int) : Int × Bool :=
  let out := wrap32 (L_var1 + L_var2)
  if ((L_var1 < 0) ↔ (L_var2 < 0)) ∧ ¬ ((out < 0) ↔ (L_var1 < 0)) then
    ((if L_var1 < 0 then MIN_32 else MAX_32), true)
  else (out, false)

/-- Function `L_add` of basop32.c (value only). -/
def L_add (L_var1 L_var2 : Int) : Int := (L_addF L_var1 L_var2).1

/-- Function `L_sub` (basop32.c lines 1105-1128) with its local overflow
indicator: overflow iff the operands have different signs and the
wrapped difference's sign differs from the first operand's. -/
def L_subF (L_var1 L_var2 : Int) : Int × Bool :=
  let out := wrap32 (L_var1 - L_var2)
  if ¬ ((L_var1 < 0) ↔ (L_var2 < 0)) ∧ ¬ ((out < 0) ↔ (L_var1 < 0)) then
    ((if L_var1 < 0 then MIN_32 else MAX_32), true)
  else (out, false)

/-- Function `L_sub` of basop32.c (value only). -/
def L_sub (L_var1 L_var2 : Int) : Int := (L_subF L_var1 L_var2).1

/-- Function `L_mac` of basop32.c (lines 942-959):
`L_add (L_var3, L_mult (var1, var2))`. -/
def L_mac (L_var3 var1 var2 : Int) : Int := L_add L_var3 (L_mult var1 var2)

/-- Function `L_msu` of basop32.c (lines 998-1015):
`L_sub (L_var3, L_mult (var1, var2))`. -/
def L_msu (L_var3 var1 var2 : Int) : Int := L_sub L_var3 (L_mult var1 var2)

/-- Function `L_mult0` of basop32.c (lines 2188-2201): the plain 16x16
product in a 32-bit word, without the left shift of `L_mult`. -/
def L_mult0 (var1 var2 : Int) : Int := wrap32 (var1 * var2)

/-- Function `L_mac0` of basop32.c (lines 2234-2251):
`L_add (L_var3, L_mult0 (var1, var2))`. -/
def L_mac0 (L_var3 var1 var2 : Int) : Int := L_add L_var3 (L_mult0 var1 var2)

/-- Function `extract_h` of basop32.c (lines 797-810):
`(Word16)(L_var1 >> 16)`; the C right shift of a signed value is an
arithmetic shift, i.e. floor division by 2^16 (which `Int` division by a
positive divisor performs). -/
def extract_h (L_var1 : Int) : Int := wrap16 (L_var1 / 65536)

/-- Function `extract_l` of basop32.c (lines 840-853): `(Word16) L_var1`. -/
def extract_l (L_var1 : Int) : Int := wrap16 L_var1

/-- The else-branch of `L_shr` (basop32.c lines 1351-1396) for a
nonnegative count: `-1`/`0` by sign for counts at or beyond 31,
otherwise an arithmetic right shift (`~((~L_var1) >> var2)` for
negative inputs). -/
def lshrPos (L_var1 var2 : Int) : Int :=
  if var2 ≥ 31 then (if L_var1 < 0 then -1 else 0)
  else if L_var1 < 0 then -((-L_var1 - 1) / 2 ^ var2.toNat) - 1
  else L_var1 / 2 ^ var2.toNat

/-- The saturating doubling loop of `L_shl` (basop32.c lines 1287-1306),
counted down from the shift amount: at each step, a value above
`0x3fffffff` breaks with `MAX_32` and a value below `-0x40000000`
breaks with `MIN_32`, both raising the function-local overflow
indicator; otherwise the value is doubled. -/
def lshlLoopF (L_var1 : Int) : Nat → Int × Bool
  | 0 => (L_var1, false)
  | n + 1 =>
    if L_var1 > 1073741823 then (MAX_32, true)
    else if L_var1 < -1073741824 then (MIN_32, true)
    else lshlLoopF (L_var1 * 2) n

/-- Function `L_shl` of basop32.c (lines 1269-1315) with its local
overflow indicator.  A nonpositive count is clamped to `-32` and
delegated to `L_shr`'s nonnegative branch. -/
def L_shlF (L_var1 var2 : Int) : Int × Bool :=
  if var2 ≤ 0 then (lshrPos L_var1 (-(max var2 (-32))), false)
  else lshlLoopF L_var1 var2.toNat

/-- Function `L_shl` of basop32.c (value only). -/
def L_shl (L_var1 var2 : Int) : Int := (L_shlF L_var1 var2).1

/-- Function `L_shr` of basop32.c (lines 1351-1396).  A negative count
is clamped to `-32` and delegated to `L_shl`'s positive branch. -/
def L_shr (L_var1 var2 : Int) : Int :=
  if var2 < 0 then (lshlLoopF L_var1 (-(max var2 (-32))).toNat).1
  else lshrPos L_var1 var2

/-- Function `i_mult` of basop32.c (lines 2140-2151):
`saturate ((Word32) a * b)` (the `ORIGINAL_G7231` variant is not
compiled). -/
def i_mult (a b : Int) : Int := saturate (a * b)

/-- The normalization loop of `norm_s` (basop32.c lines 1797-1800):
count doublings until the (positive) value reaches `0x4000`.  The C
loop is only ever entered with `1 ≤ var1 ≤ 32766`; the `1 ≤ v` guard
makes the recursion well founded. -/
def normLoop (v : Int) : Nat :=
  if h : 1 ≤ v ∧ v < 16384 then normLoop (2 * v) + 1 else 0
termination_by (16384 - v).toNat
decreasing_by
  obtain ⟨h1, h2⟩ := h
  omega

/-- Function `norm_s` of basop32.c (lines 1777-1811): `0` for input 0,
`15` for input `-1` (`0xffff`), otherwise the doubling count of the
input (complemented first when negative, `var1 = ~var1`). -/
def norm_s (var1 : Int) : Int :=
  if var1 = 0 then 0
  else if var1 = -1 then 15
  else if var1 < 0 then (normLoop (-var1 - 1) : Int)
  else (normLoop var1 : Int)

end Basop

namespace Basop

/-! ### Global overflow flag

basop32.c declares a process-global `Flag Overflow` (line 150).  Each
saturating operator declares a function-local `int Overflow = 0` that
shadows the global and is only passed (by value) to the `BASOP_CHECK`
diagnostic hook; no operator assigns the global.  The following
state-passing forms make that observable fact explicit: each takes the
value of the global flag before the call and returns it after the call,
unchanged, alongside the numeric result. -/

/-- State-passing form of `add`: the body of `add` (lines 315-327,
via `saturate`, lines 253-279) never assigns the global `Overflow`. -/
def add_g (ovf : Int) (var1 var2 : Int) : Int × Int := (add var1 var2, ovf)

/-- State-passing form of `sub`: its body never assigns the global flag. -/
def sub_g (ovf : Int) (var1 var2 : Int) : Int × Int := (sub var1 var2, ovf)

/-- State-passing form of `shl`: its body never assigns the global flag. -/
def shl_g (ovf : Int) (var1 var2 : Int) : Int × Int := (shl var1 var2, ovf)

/-- State-passing form of `L_add`: its body never assigns the global flag. -/
def L_add_g (ovf : Int) (a b : Int) : Int × Int := (L_add a b, ovf)

/-- State-passing form of `L_sub`: its body never assigns the global flag. -/
def L_sub_g (ovf : Int) (a b : Int) : Int × Int := (L_sub a b, ovf)

/-- State-passing form of `L_shl`: its body never assigns the global flag. -/
def L_shl_g (ovf : Int) (a b : Int) : Int × Int := (L_shl a b, ovf)

/-- State-passing form of `L_mac`: neither its body nor the `L_mult` and
`L_add` it calls assigns the global flag. -/
def L_mac_g (ovf : Int) (L_var3 var1 var2 : Int) : Int × Int :=
  (L_mac L_var3 var1 var2, ovf)

end Basop

namespace Basop

/-- Clamping of an exact value into the 16-bit range, the specification
formula `clamp(x, -32768, 32767)`. -/
def clamp16 (x : Int) : Int := max (-32768) (min 32767 x)

/-- Clamping of an exact value into the 32-bit range. -/
def clamp32 (x : Int) : Int := max (-2147483648) (min 2147483647 x)

theorem wrap16_eq_of_inW16 (x : Int) (h : inW16 x) : wrap16 x = x := by
  obtain ⟨h1, h2⟩ := h
  unfold wrap16
  omega

theorem wrap32_eq_of_inW32 (x : Int) (h : inW32 x) : wrap32 x = x := by
  obtain ⟨h1, h2⟩ := h
  unfold wrap32
  omega

theorem saturate_eq_clamp16 (x : Int) : saturate x = clamp16 x := by
  unfold saturate saturateF clamp16 MAX_16 MIN_16
  split
  · omega
  · split
    · omega
    · rw [wrap16_eq_of_inW16]
      · omega
      · constructor <;> omega

end Basop

namespace Basop

/-- Claim C1: for all Word16 inputs `a` and `b`, `add(a,b)` returns
`clamp(a+b, -32768, 32767)` and `sub(a,b)` returns
`clamp(a-b, -32768, 32767)`, the sum/difference being computed exactly
in a wider intermediate before clamping. -/
theorem add_sub_clamp (a b : Int) (_ha : inW16 a) (_hb : inW16 b) :
    add a b = clamp16 (a + b) ∧ sub a b = clamp16 (a - b) := by
  constructor
  · unfold add addF
    exact saturate_eq_clamp16 (a + b)
  · unfold sub subF
    exact saturate_eq_clamp16 (a - b)

/-- Witness for C1: `add(32767, 1)` clamps to `32767` and
`sub(-32768, 1)` clamps to `-32768`. -/
theorem add_sub_clamp_witness :
    inW16 32767 ∧ inW16 1 ∧
      add 32767 1 = clamp16 (32767 + 1) ∧ sub 32767 1 = clamp16 (32767 - 1) :=
  ⟨by decide, by decide, add_sub_clamp 32767 1 (by decide) (by decide)⟩

end Basop

namespace Basop

/-- One iteration of the restoring-division loop of `div_s` (basop32.c
lines 1895-1909), acting on the state `(var_out, L_num, sat)` where
`sat` accumulates the local overflow indicators of the `L_sub` and `add`
calls inside the loop.  `var_out <<= 1` is a `Word16` shift (hence
`wrap16`), `L_num <<= 1` a `Word32` shift (hence `wrap32`). -/
def divStep (L_denom : Int) (st : Int × Int × Bool) : Int × Int × Bool :=
  let var_out := wrap16 (st.1 * 2)
  let L_num := wrap32 (st.2.1 * 2)
  if L_num ≥ L_denom then
    let s := L_subF L_num L_denom
    let a := addF var_out 1
    (a.1, s.1, st.2.2 || s.2 || a.2)
  else (var_out, L_num, st.2.2)

/-- The `div_s` loop iterated `n` times (the C source runs it 15 times). -/
def divIter (L_denom : Int) (st : Int × Int × Bool) : Nat → Int × Int × Bool
  | 0 => st
  | n + 1 => divIter L_denom (divStep L_denom st) n

/-- Function `div_s` of basop32.c (lines 1850-1920), with the
accumulated overflow indicator of its internal `add`/`L_sub` calls.
`none` models the two `abort()` calls: the first for
`var1 > var2 || var1 < 0 || var2 < 0`, the second for `var2 == 0`.
Otherwise: `0` for `var1 == 0`, `MAX_16` for `var1 == var2`, and the
result of 15 restoring shift-and-subtract iterations. -/
def div_sF (var1 var2 : Int) : Option (Int × Bool) :=
  if var1 > var2 ∨ var1 < 0 ∨ var2 < 0 then none
  else if var2 = 0 then none
  else if var1 = 0 then some (0, false)
  else if var1 = var2 then some (MAX_16, false)
  else
    let st := divIter var2 (0, var1, false) 15
    some (st.1, st.2.2)

/-- Function `div_s` of basop32.c (numeric result only; `none` = abort). -/
def div_s (var1 var2 : Int) : Option Int := (div_sF var1 var2).map Prod.fst

end Basop

namespace Basop

/-- Claim C3: `div_s(var1, var2)` aborts (producing no numeric result)
if and only if its precondition is violated -- `var1 > var2`, or
`var1 < 0`, or `var2 < 0`, or `var2 = 0` -- and returns normally for
every input pair with `0 ≤ var1 ≤ var2` and `var2 ≠ 0`. -/
theorem div_s_abort_iff (var1 var2 : Int)
    (_h1 : inW16 var1) (_h2 : inW16 var2) :
    (div_s var1 var2 = none ↔
      (var1 > var2 ∨ var1 < 0 ∨ var2 < 0 ∨ var2 = 0)) ∧
    (0 ≤ var1 → var1 ≤ var2 → var2 ≠ 0 → (div_s var1 var2).isSome) := by
  unfold div_s div_sF
  constructor
  · by_cases hA : var1 > var2 ∨ var1 < 0 ∨ var2 < 0
    · simp [hA]
      tauto
    · rw [if_neg hA]
      by_cases hB : var2 = 0
      · simp [hB]
      · rw [if_neg hB]
        push_neg at hA
        by_cases hC : var1 = 0
        · simp [hC, hB]
          omega
        · rw [if_neg hC]
          by_cases hD : var1 = var2
          · simp [hD, hB]
            omega
          · simp [hD]
            omega
  · intro ha hb hc
    rw [if_neg (by omega), if_neg hc]
    by_cases hC : var1 = 0
    · simp [hC]
    · rw [if_neg hC]
      by_cases hD : var1 = var2
      · simp [hD]
      · simp [hD]

/-- Witness for C3: `div_s(5, 3)` aborts (precondition violated) while
`div_s(3, 5)` returns normally. -/
theorem div_s_abort_iff_witness :
    (div_s 5 3 = none) ∧ (div_s 3 5).isSome := by
  refine ⟨?_, ?_⟩
  · exact ((div_s_abort_iff 5 3 (by decide) (by decide)).1).mpr (by omega)
  · exact (div_s_abort_iff 3 5 (by decide) (by decide)).2
      (by omega) (by omega) (by omega)

set_option maxRecDepth 4000 in
/-- Counterexample to claim C4: `div_s(3, 5)` does not return 19661; the
restoring-division loop truncates and returns 19660. -/
theorem div_s_3_5_ne_19661 : div_s 3 5 ≠ some 19661 ∧ div_s 3 5 = some 19660 := by
  constructor
  · decide
  · decide

set_option maxRecDepth 4000 in
/-- Claim C4 as amended: `div_s(3, 5)` returns 19660, the truncated Q15
quotient `(3 * 32768) / 5`, which is within 1 ULP of
`round(3/5 * 32768) = 19661`. -/
theorem div_s_3_5_truncated :
    div_s 3 5 = some ((3 * 32768) / 5) ∧ ((19661 : Int) - 19660).natAbs ≤ 1 := by
  constructor
  · decide
  · decide

end Basop

namespace Basop

/-- Claim C6: for every Word16 `a` and every shift count `s` in
`[-16, 16]`, `shl(a, -s) = shr(a, s)` and `shr(a, -s) = shl(a, s)`. -/
theorem shl_shr_symmetry (a s : Int) (ha : inW16 a)
    (hs1 : -16 ≤ s) (hs2 : s ≤ 16) :
    shl a (-s) = shr a s ∧ shr a (-s) = shl a s := by
  have hmax : max (-s) (-16) = -s := by omega
  have hmax' : max s (-16) = s := by omega
  rcases lt_trichotomy s 0 with h | h | h
  · constructor
    · unfold shl shlF shr
      rw [if_neg (by omega), if_pos (by omega), hmax']
    · unfold shr shl shlF
      rw [if_neg (by omega), if_pos (by omega), hmax']
  · subst h
    have hp : (2 : Int) ^ ((0 : Int).toNat) = 1 := by norm_num
    have hid1 : shrPos a 0 = a := by
      unfold shrPos
      rw [if_neg (by omega)]
      obtain ⟨h1, h2⟩ := ha
      by_cases hneg : a < 0
      · rw [if_pos hneg, hp]
        omega
      · rw [if_neg hneg, hp]
        omega
    have hid2 : (shlPosF a 0).1 = a := by
      unfold shlPosF
      rw [if_neg]
      · simp only [hp, mul_one]
        exact wrap16_eq_of_inW16 a ha
      · push_neg
        refine ⟨fun hbad => absurd hbad (by omega), ?_⟩
        simpa [hp] using ha
    constructor
    · unfold shl shlF shr
      simp only [neg_zero]
      rw [if_neg (by omega), if_neg (by omega), hid1, hid2]
    · unfold shr shl shlF
      simp only [neg_zero]
      rw [if_neg (by omega), if_neg (by omega), hid1, hid2]
  · constructor
    · unfold shl shlF shr
      rw [if_pos (by omega), if_neg (by omega), hmax, neg_neg]
    · unfold shr shl shlF
      rw [if_pos (by omega), if_neg (by omega), hmax, neg_neg]

/-- Witness for C6: shift symmetry at `a = -12345`, `s = 3`. -/
theorem shl_shr_symmetry_witness :
    shl (-12345) (-3) = shr (-12345) 3 ∧ shr (-12345) (-3) = shl (-12345) 3 :=
  shl_shr_symmetry (-12345) 3 (by decide) (by decide) (by decide)

end Basop

namespace Basop

/-- Bit 14 (the second-most-significant bit) of the 16-bit
two's-complement representation of a Word16 value. -/
def bit14set (x : Int) : Bool := (x % 65536) / 16384 % 2 == 1

theorem normLoop_bounds : ∀ v : Int, 1 ≤ v → v ≤ 32767 →
    16384 ≤ 2 ^ normLoop v * v ∧ 2 ^ normLoop v * v ≤ 32767 := by
  intro v
  induction v using normLoop.induct with
  | case1 v h ih =>
      intro _ _
      obtain ⟨hv1, hv2⟩ := h
      rw [normLoop, dif_pos ⟨hv1, hv2⟩]
      have hstep := ih (by omega) (by omega)
      have harith : (2 : Int) ^ (normLoop (2 * v) + 1) * v =
          2 ^ normLoop (2 * v) * (2 * v) := by ring
      rw [harith]
      exact hstep
  | case2 v h =>
      intro h1 _h2
      rw [normLoop, dif_neg h]
      have : ¬ v < 16384 := fun hc => h ⟨h1, hc⟩
      simpa using by omega

theorem pow_le_32767_imp_le_14 (n : Nat) (h : (2 : Int) ^ n ≤ 32767) :
    n ≤ 14 := by
  by_contra hc
  push_neg at hc
  have h15 : (2 : Int) ^ 15 ≤ 2 ^ n :=
    pow_le_pow_right₀ (by norm_num) (by omega)
  norm_num at h15
  omega

theorem shl_of_normalized (v : Int) (n : Nat) (hfit : inW16 (v * 2 ^ n))
    (hn : n ≤ 14) : shl v (n : Int) = v * 2 ^ n := by
  unfold shl shlF shlPosF
  rw [if_neg (by omega)]
  have htn : ((n : Int)).toNat = n := Int.toNat_natCast n
  rw [if_neg]
  · rw [htn]
    exact wrap16_eq_of_inW16 _ hfit
  · push_neg
    rw [htn]
    exact ⟨fun hbad => absurd hbad (by omega), hfit⟩

theorem norm_s_normalizes_pos (v : Int) (h1 : 1 ≤ v) (h2 : v ≤ 32767) :
    shl v (norm_s v) = v * 2 ^ normLoop v ∧
      16384 ≤ v * 2 ^ normLoop v ∧ v * 2 ^ normLoop v ≤ 32767 := by
  obtain ⟨hb1, hb2⟩ := normLoop_bounds v h1 h2
  have hn14 : normLoop v ≤ 14 := by
    apply pow_le_32767_imp_le_14
    calc (2 : Int) ^ normLoop v = 2 ^ normLoop v * 1 := by ring
    _ ≤ 2 ^ normLoop v * v := by
        apply mul_le_mul_of_nonneg_left h1 (by positivity)
    _ ≤ 32767 := hb2
  have hnorm : norm_s v = (normLoop v : Int) := by
    unfold norm_s
    rw [if_neg (by omega), if_neg (by omega), if_neg (by omega)]
  rw [hnorm]
  have hcomm : v * 2 ^ normLoop v = 2 ^ normLoop v * v := by ring
  refine ⟨shl_of_normalized v (normLoop v) ⟨by omega, by omega⟩ hn14, by omega, by omega⟩

theorem norm_s_normalizes_neg (v : Int) (h1 : -32768 ≤ v) (h2 : v ≤ -2) :
    shl v (norm_s v) = v * 2 ^ normLoop (-v - 1) ∧
      -32768 ≤ v * 2 ^ normLoop (-v - 1) ∧ v * 2 ^ normLoop (-v - 1) ≤ -16384 := by
  obtain ⟨hb1, hb2⟩ := normLoop_bounds (-v - 1) (by omega) (by omega)
  set n := normLoop (-v - 1) with hn
  have hn14 : n ≤ 14 := by
    apply pow_le_32767_imp_le_14
    calc (2 : Int) ^ n = 2 ^ n * 1 := by ring
    _ ≤ 2 ^ n * (-v - 1) := by
        apply mul_le_mul_of_nonneg_left (by omega) (by positivity)
    _ ≤ 32767 := hb2
  -- from 2^n * (-v-1) ≤ 32767 < 2^15 deduce 2^n * (-v) ≤ 2^15
  have hupper : 2 ^ n * (-v) ≤ 32768 := by
    have hlt : 2 ^ n * (-v - 1) < 2 ^ n * 2 ^ (15 - n) := by
      have : (2 : Int) ^ n * 2 ^ (15 - n) = 2 ^ 15 := by
        rw [← pow_add]
        congr 1
        omega
      rw [this]
      norm_num
      omega
    have hcancel : -v - 1 < 2 ^ (15 - n) :=
      lt_of_mul_lt_mul_left hlt (by positivity)
    have : -v ≤ 2 ^ (15 - n) := by omega
    calc 2 ^ n * (-v) ≤ 2 ^ n * 2 ^ (15 - n) := by
          apply mul_le_mul_of_nonneg_left this (by positivity)
    _ = 2 ^ 15 := by rw [← pow_add]; congr 1; omega
    _ = 32768 := by norm_num
  have hlower : 16384 ≤ 2 ^ n * (-v) := by
    calc (16384 : Int) ≤ 2 ^ n * (-v - 1) := hb1
    _ ≤ 2 ^ n * (-v) := by
        apply mul_le_mul_of_nonneg_left (by omega) (by positivity)
  have hval : v * 2 ^ n = -(2 ^ n * (-v)) := by ring
  have hnorm : norm_s v = (n : Int) := by
    unfold norm_s
    rw [if_neg (by omega), if_neg (by omega), if_pos (by omega)]
  rw [hnorm]
  refine ⟨shl_of_normalized v n ⟨by omega, by omega⟩ hn14, by omega, by omega⟩

/-- Counterexample to claim C5: at `v = -1` (and every other negative
input except -16384) the normalized value `shl(v, norm_s(v))` does NOT
have its second-most-significant bit set: `shl(-1, norm_s(-1)) = -32768`
whose 16-bit pattern `0x8000` has bit 14 clear. -/
theorem norm_s_bit14_counterexample :
    shl (-1) (norm_s (-1)) = -32768 ∧ bit14set (-32768) = false := by
  constructor
  · decide
  · decide

/-- Claim C5 as amended: `norm_s(0) = 0`; `norm_s(-1) = 15`; and for
every nonzero Word16 `v`, `shl(v, norm_s(v))` is normalized -- for
positive `v` it lies in `[16384, 32767]` (so its second-most-significant
bit is set), and for negative `v` it lies in `[-32768, -16384]` (where
bit 14 of the two's-complement pattern is in general clear). -/
theorem norm_s_normalized :
    norm_s 0 = 0 ∧ norm_s (-1) = 15 ∧
    ∀ v : Int, inW16 v → v ≠ 0 →
      (0 < v → 16384 ≤ shl v (norm_s v) ∧ shl v (norm_s v) ≤ 32767 ∧
        bit14set (shl v (norm_s v)) = true) ∧
      (v < 0 → -32768 ≤ shl v (norm_s v) ∧ shl v (norm_s v) ≤ -16384) := by
  refine ⟨by decide, by decide, ?_⟩
  intro v hv hv0
  obtain ⟨hlo, hhi⟩ := hv
  constructor
  · intro hpos
    obtain ⟨heq, hb1, hb2⟩ := norm_s_normalizes_pos v (by omega) hhi
    rw [heq]
    refine ⟨hb1, hb2, ?_⟩
    unfold bit14set
    have h1 : v * 2 ^ normLoop v % 65536 = v * 2 ^ normLoop v := by omega
    rw [h1]
    have h2 : v * 2 ^ normLoop v / 16384 = 1 := by omega
    rw [h2]
    decide
  · intro hneg
    by_cases hm1 : v = -1
    · subst hm1
      constructor
      · decide
      · decide
    · obtain ⟨heq, hb1, hb2⟩ := norm_s_normalizes_neg v hlo (by omega)
      rw [heq]
      exact ⟨hb1, hb2⟩

/-- Witness for the amended C5 at `v = 3`: `norm_s(3) = 13` and
`shl(3, 13) = 24576` is normalized with bit 14 set. -/
theorem norm_s_normalized_witness :
    16384 ≤ shl 3 (norm_s 3) ∧ shl 3 (norm_s 3) ≤ 32767 ∧
      bit14set (shl 3 (norm_s 3)) = true :=
  (norm_s_normalized.2.2 3 (by decide) (by decide)).1 (by decide)

end Basop

namespace Basop

theorem ediv_emod_unique (a b q r : Int) (hb : 0 < b) (h : a = b * q + r)
    (h0 : 0 ≤ r) (h1 : r < b) : a / b = q ∧ a % b = r := by
  have h2 : a = r + b * q := by omega
  constructor
  · rw [h2, Int.add_mul_ediv_left r q (by omega), Int.ediv_eq_zero_of_lt h0 h1]
    omega
  · rw [h2, Int.add_mul_emod_self_left, Int.emod_eq_of_lt h0 h1]

theorem divIter_succ (d : Int) (st : Int × Int × Bool) (n : Nat) :
    divIter d st (n + 1) = divStep d (divIter d st n) := by
  induction n generalizing st with
  | zero => rfl
  | succ m ih =>
      show divIter d (divStep d st) (m + 1) = _
      rw [ih (divStep d st)]
      rfl

theorem divIter_spec (var1 var2 : Int)
    (h0 : 0 ≤ var1) (h1 : var1 < var2) (h2 : var2 ≤ 32767) :
    ∀ k : Nat, k ≤ 15 →
      divIter var2 (0, var1, false) k =
        (var1 * 2 ^ k / var2, var1 * 2 ^ k % var2, false) := by
  intro k
  induction k with
  | zero =>
      intro _
      have hq : var1 * 2 ^ 0 / var2 = 0 := by
        rw [pow_zero, mul_one]
        exact Int.ediv_eq_zero_of_lt h0 h1
      have hr : var1 * 2 ^ 0 % var2 = var1 := by
        rw [pow_zero, mul_one]
        exact Int.emod_eq_of_lt h0 h1
      rw [hq, hr]
      rfl
  | succ k ih =>
      intro hk15
      have hk14 : k ≤ 14 := by omega
      rw [divIter_succ, ih (by omega)]
      set q := var1 * 2 ^ k / var2 with hqdef
      set r := var1 * 2 ^ k % var2 with hrdef
      have hdec : var1 * 2 ^ k = var2 * q + r := (Int.ediv_add_emod _ _).symm
      have hr0 : 0 ≤ r := Int.emod_nonneg _ (by omega)
      have hr1 : r < var2 := Int.emod_lt_of_pos _ (by omega)
      have hq0 : 0 ≤ q := Int.ediv_nonneg (by positivity) (by omega)
      have hqlt : q < 2 ^ k := by
        rw [hqdef]
        rw [Int.ediv_lt_iff_lt_mul (by omega)]
        have : var1 * 2 ^ k < var2 * 2 ^ k := by
          apply mul_lt_mul_of_pos_right h1 (by positivity)
        calc var1 * 2 ^ k < var2 * 2 ^ k := this
        _ = 2 ^ k * var2 := by ring
      have hpk : (2 : Int) ^ k ≤ 2 ^ 14 := pow_le_pow_right₀ (by norm_num) hk14
      have hq16 : 2 * q + 1 ≤ 32767 := by
        have : (2 : Int) ^ 14 = 16384 := by norm_num
        omega
      have hnext : var1 * 2 ^ (k + 1) = var2 * (2 * q) + 2 * r := by
        have : var1 * 2 ^ (k + 1) = 2 * (var1 * 2 ^ k) := by ring
        rw [this, hdec]
        ring
      unfold divStep
      simp only
      have hw1 : wrap16 (q * 2) = 2 * q := by
        rw [wrap16_eq_of_inW16 _ ⟨by omega, by omega⟩]
        ring
      have hw2 : wrap32 (r * 2) = 2 * r := by
        rw [wrap32_eq_of_inW32 _ ⟨by omega, by omega⟩]
        ring
      rw [hw1, hw2]
      by_cases hge : 2 * r ≥ var2
      · rw [if_pos hge]
        have hsub : L_subF (2 * r) var2 = (2 * r - var2, false) := by
          simp only [L_subF]
          rw [if_neg (fun hc => hc.1 (iff_of_false (by omega) (by omega)))]
          rw [wrap32_eq_of_inW32 _ ⟨by omega, by omega⟩]
        have hadd : addF (2 * q) 1 = (2 * q + 1, false) := by
          unfold addF saturateF
          rw [if_neg (by omega), if_neg (by omega),
            wrap16_eq_of_inW16 _ ⟨by omega, by omega⟩]
        rw [hsub, hadd]
        have huniq := ediv_emod_unique (var1 * 2 ^ (k + 1)) var2 (2 * q + 1)
          (2 * r - var2) (by omega) (by rw [hnext]; ring) (by omega) (by omega)
        rw [huniq.1, huniq.2]
        rfl
      · rw [if_neg hge]
        have huniq := ediv_emod_unique (var1 * 2 ^ (k + 1)) var2 (2 * q)
          (2 * r) (by omega) (by rw [hnext]) (by omega) (by omega)
        rw [huniq.1, huniq.2]

/-- Claim C9: for all Word16 inputs with `0 ≤ var1 < var2`,
`div_s(var1, var2)` returns exactly `floor(var1 * 32768 / var2)` -- the
truncated Q15 quotient -- and none of the internal `add`/`L_sub` steps
of the 15-iteration restoring loop ever saturates (the accumulated
local overflow indicator stays false). -/
theorem div_s_exact (var1 var2 : Int)
    (h0 : 0 ≤ var1) (h1 : var1 < var2) (h2 : var2 ≤ 32767) :
    div_sF var1 var2 = some (var1 * 32768 / var2, false) ∧
      div_s var1 var2 = some (var1 * 32768 / var2) := by
  have hmain : div_sF var1 var2 = some (var1 * 32768 / var2, false) := by
    unfold div_sF
    rw [if_neg (by omega), if_neg (by omega)]
    by_cases hz : var1 = 0
    · subst hz
      rw [if_pos rfl, Int.zero_mul, Int.zero_ediv]
    · rw [if_neg hz, if_neg (by omega)]
      have h15 := divIter_spec var1 var2 h0 h1 h2 15 (by omega)
      simp only [h15]
      norm_num
  exact ⟨hmain, by rw [div_s, hmain]; rfl⟩

/-- Witness for C9: `div_s(1, 2)` returns `16384 = floor(1 * 32768 / 2)`
with no internal saturation. -/
theorem div_s_exact_witness :
    div_sF 1 2 = some (1 * 32768 / 2, false) ∧ div_s 1 2 = some (1 * 32768 / 2) :=
  div_s_exact 1 2 (by decide) (by decide) (by decide)

end Basop

namespace Basop

theorem clamp16_of_gt (x : Int) (h : 32767 < x) : clamp16 x = 32767 := by
  unfold clamp16
  omega

theorem clamp16_of_lt (x : Int) (h : x < -32768) : clamp16 x = -32768 := by
  unfold clamp16
  omega

theorem clamp32_of_gt (x : Int) (h : 2147483647 < x) : clamp32 x = 2147483647 := by
  unfold clamp32
  omega

theorem clamp32_of_lt (x : Int) (h : x < -2147483648) : clamp32 x = -2147483648 := by
  unfold clamp32
  omega

theorem addF_overflow (a b : Int) (h : ¬ inW16 (a + b)) :
    add a b = clamp16 (a + b) ∧ (addF a b).2 = true := by
  unfold inW16 at h
  push_neg at h
  unfold add addF saturateF
  by_cases h1 : a + b > 32767
  · rw [if_pos h1, clamp16_of_gt _ h1]
    exact ⟨rfl, rfl⟩
  · have h2 : a + b < -32768 := by omega
    rw [if_neg h1, if_pos h2, clamp16_of_lt _ h2]
    exact ⟨rfl, rfl⟩

theorem subF_overflow (a b : Int) (h : ¬ inW16 (a - b)) :
    sub a b = clamp16 (a - b) ∧ (subF a b).2 = true := by
  unfold inW16 at h
  push_neg at h
  unfold sub subF saturateF
  by_cases h1 : a - b > 32767
  · rw [if_pos h1, clamp16_of_gt _ h1]
    exact ⟨rfl, rfl⟩
  · have h2 : a - b < -32768 := by omega
    rw [if_neg h1, if_pos h2, clamp16_of_lt _ h2]
    exact ⟨rfl, rfl⟩

theorem shlF_overflow (a n : Int) (hn : 0 ≤ n) (h : ¬ inW16 (a * 2 ^ n.toNat)) :
    shl a n = clamp16 (a * 2 ^ n.toNat) ∧ (shlF a n).2 = true := by
  have hpow : (0 : Int) < 2 ^ n.toNat := by positivity
  have hval : shlF a n = ((if a > 0 then MAX_16 else MIN_16), true) := by
    unfold shlF shlPosF
    rw [if_neg (by omega), if_pos (Or.inr h)]
  have hclamp : clamp16 (a * 2 ^ n.toNat) = (if a > 0 then MAX_16 else MIN_16) := by
    unfold inW16 at h
    push_neg at h
    by_cases hs : a > 0
    · have : 0 < a * 2 ^ n.toNat := mul_pos hs hpow
      rw [if_pos hs]
      exact clamp16_of_gt _ (by omega)
    · have : a * 2 ^ n.toNat ≤ 0 :=
        mul_nonpos_of_nonpos_of_nonneg (by omega) (by omega)
      rw [if_neg hs]
      exact clamp16_of_lt _ (by omega)
  unfold shl
  rw [hval, hclamp]
  exact ⟨rfl, rfl⟩

theorem L_addF_overflow (a b : Int) (ha : inW32 a) (hb : inW32 b)
    (h : ¬ inW32 (a + b)) :
    L_add a b = clamp32 (a + b) ∧ (L_addF a b).2 = true := by
  unfold inW32 at ha hb h
  push_neg at h
  have hval : L_addF a b = ((if a < 0 then MIN_32 else MAX_32), true) := by
    simp only [L_addF]
    by_cases h1 : a + b > 2147483647
    · have ha0 : ¬ (a < 0) := by omega
      have hb0 : ¬ (b < 0) := by omega
      have hout : wrap32 (a + b) < 0 := by unfold wrap32; omega
      rw [if_pos ⟨iff_of_false ha0 hb0, fun hiff => ha0 (hiff.mp hout)⟩]
    · have h2 : a + b < -2147483648 := by omega
      have ha0 : a < 0 := by omega
      have hb0 : b < 0 := by omega
      have hout : ¬ (wrap32 (a + b) < 0) := by unfold wrap32; omega
      rw [if_pos ⟨iff_of_true ha0 hb0, fun hiff => hout (hiff.mpr ha0)⟩]
  have hclamp : clamp32 (a + b) = (if a < 0 then MIN_32 else MAX_32) := by
    by_cases h1 : a + b > 2147483647
    · rw [if_neg (by omega)]
      exact clamp32_of_gt _ h1
    · rw [if_pos (by omega)]
      exact clamp32_of_lt _ (by omega)
  unfold L_add
  rw [hval, hclamp]
  exact ⟨rfl, rfl⟩

theorem L_subF_overflow (a b : Int) (ha : inW32 a) (hb : inW32 b)
    (h : ¬ inW32 (a - b)) :
    L_sub a b = clamp32 (a - b) ∧ (L_subF a b).2 = true := by
  unfold inW32 at ha hb h
  push_neg at h
  have hval : L_subF a b = ((if a < 0 then MIN_32 else MAX_32), true) := by
    simp only [L_subF]
    by_cases h1 : a - b > 2147483647
    · have ha0 : ¬ (a < 0) := by omega
      have hb0 : b < 0 := by omega
      have hout : wrap32 (a - b) < 0 := by unfold wrap32; omega
      rw [if_pos ⟨fun hiff => ha0 (hiff.mpr hb0), fun hiff => ha0 (hiff.mp hout)⟩]
    · have h2 : a - b < -2147483648 := by omega
      have ha0 : a < 0 := by omega
      have hb0 : ¬ (b < 0) := by omega
      have hout : ¬ (wrap32 (a - b) < 0) := by unfold wrap32; omega
      rw [if_pos ⟨fun hiff => hb0 (hiff.mp ha0), fun hiff => hout (hiff.mpr ha0)⟩]
  have hclamp : clamp32 (a - b) = (if a < 0 then MIN_32 else MAX_32) := by
    by_cases h1 : a - b > 2147483647
    · rw [if_neg (by omega)]
      exact clamp32_of_gt _ h1
    · rw [if_pos (by omega)]
      exact clamp32_of_lt _ (by omega)
  unfold L_sub
  rw [hval, hclamp]
  exact ⟨rfl, rfl⟩

theorem lshlLoopF_overflow : ∀ (n : Nat) (L : Int), inW32 L → L ≠ 0 →
    ¬ inW32 (L * 2 ^ n) →
    lshlLoopF L n = ((if 0 < L then MAX_32 else MIN_32), true) := by
  intro n
  induction n with
  | zero =>
      intro L hL h0 hbad
      exact absurd hL (by simpa using hbad)
  | succ m ih =>
      intro L hL h0 hbad
      unfold inW32 at hL
      by_cases hhi : L > 1073741823
      · show lshlLoopF L (m + 1) = _
        unfold lshlLoopF
        rw [if_pos hhi, if_pos (by omega)]
      · by_cases hlo : L < -1073741824
        · show lshlLoopF L (m + 1) = _
          unfold lshlLoopF
          rw [if_neg hhi, if_pos hlo, if_neg (by omega)]
        · show lshlLoopF L (m + 1) = _
          unfold lshlLoopF
          rw [if_neg hhi, if_neg hlo]
          have hbad' : ¬ inW32 (L * 2 * 2 ^ m) := by
            intro hc
            apply hbad
            have heq : L * 2 ^ (m + 1) = L * 2 * 2 ^ m := by ring
            rw [heq]
            exact hc
          have hrec := ih (L * 2) ⟨by omega, by omega⟩ (by omega) hbad'
          rw [hrec]
          have hiff : (0 < L * 2) ↔ (0 < L) := by omega
          rw [if_congr hiff rfl rfl]

theorem L_shlF_overflow (L n : Int) (hn : 0 < n) (hL : inW32 L) (h0 : L ≠ 0)
    (h : ¬ inW32 (L * 2 ^ n.toNat)) :
    L_shl L n = clamp32 (L * 2 ^ n.toNat) ∧ (L_shlF L n).2 = true := by
  have hpow : (0 : Int) < 2 ^ n.toNat := by positivity
  have hval : L_shlF L n = ((if 0 < L then MAX_32 else MIN_32), true) := by
    unfold L_shlF
    rw [if_neg (by omega)]
    exact lshlLoopF_overflow n.toNat L hL h0 h
  have hclamp : clamp32 (L * 2 ^ n.toNat) = (if 0 < L then MAX_32 else MIN_32) := by
    unfold inW32 at h
    push_neg at h
    by_cases hs : 0 < L
    · have : 0 < L * 2 ^ n.toNat := mul_pos hs hpow
      rw [if_pos hs]
      exact clamp32_of_gt _ (by omega)
    · have : L * 2 ^ n.toNat ≤ 0 :=
        mul_nonpos_of_nonpos_of_nonneg (by omega) (by omega)
      rw [if_neg hs]
      exact clamp32_of_lt _ (by omega)
  unfold L_shl
  rw [hval, hclamp]
  exact ⟨rfl, rfl⟩

/-- Function `L_mac` with the function-local overflow indicators of its
inner `L_mult` (lines 692-716) and `L_add` (lines 1048-1071) calls. -/
def L_macF (L_var3 var1 var2 : Int) : Int × Bool :=
  let m := L_multF var1 var2
  let s := L_addF L_var3 m.1
  (s.1, m.2 || s.2)

/-- Function `L_msu` with the function-local overflow indicators of its
inner `L_mult` and `L_sub` calls. -/
def L_msuF (L_var3 var1 var2 : Int) : Int × Bool :=
  let m := L_multF var1 var2
  let s := L_subF L_var3 m.1
  (s.1, m.2 || s.2)

theorem mul_abs_bound (a b : Int) (ha : inW16 a) (hb : inW16 b) :
    -1073741824 ≤ a * b ∧ a * b ≤ 1073741824 := by
  unfold inW16 at ha hb
  have h1 : |a| ≤ 32768 := by rw [abs_le]; omega
  have h2 : |b| ≤ 32768 := by rw [abs_le]; omega
  have hm : |a * b| ≤ 32768 * 32768 := by
    rw [abs_mul]
    exact mul_le_mul h1 h2 (abs_nonneg b) (by omega)
  rw [abs_le] at hm
  omega

theorem L_macF_overflow (L3 a b : Int) (hL : inW32 L3)
    (ha : inW16 a) (hb : inW16 b) (h : ¬ inW32 (L3 + 2 * (a * b))) :
    L_mac L3 a b = clamp32 (L3 + 2 * (a * b)) ∧ (L_macF L3 a b).2 = true := by
  have habs := mul_abs_bound a b ha hb
  by_cases hp : a * b = 1073741824
  · have hL3 : 0 < L3 ∨ L3 = 0 := by
      unfold inW32 at hL h
      push_neg at h
      omega
    have hmult : L_multF a b = (MAX_32, true) := by
      simp only [L_multF]
      rw [hp, if_neg (by omega)]
    have hclamp : clamp32 (L3 + 2 * (a * b)) = 2147483647 := by
      rw [hp]
      exact clamp32_of_gt _ (by omega)
    rcases hL3 with hL3 | hL3
    · have hadd := L_addF_overflow L3 2147483647 hL (by decide)
        (by unfold inW32; omega)
      constructor
      · unfold L_mac L_mult
        rw [hmult]
        simp only
        show L_add L3 2147483647 = clamp32 (L3 + 2 * (a * b))
        rw [hadd.1, hclamp, clamp32_of_gt _ (by omega)]
      · simp only [L_macF]
        rw [hmult]
        simp
    · subst hL3
      constructor
      · unfold L_mac L_mult
        rw [hmult]
        simp only
        rw [hclamp]
        decide
      · simp only [L_macF]
        rw [hmult]
        simp
  · have h2ab : inW32 (2 * (a * b)) := by unfold inW32; omega
    have hmult : L_multF a b = (2 * (a * b), false) := by
      simp only [L_multF]
      rw [if_pos hp, wrap32_eq_of_inW32 _ (by unfold inW32 at h2ab ⊢; omega)]
      congr 1
      ring
    have hadd := L_addF_overflow L3 (2 * (a * b)) hL h2ab h
    constructor
    · unfold L_mac L_mult
      rw [hmult]
      simp only
      exact hadd.1
    · simp only [L_macF]
      rw [hmult]
      simp only [Bool.false_or]
      exact hadd.2

theorem L_msuF_overflow (L3 a b : Int) (hL : inW32 L3)
    (ha : inW16 a) (hb : inW16 b) (h : ¬ inW32 (L3 - 2 * (a * b))) :
    L_msu L3 a b = clamp32 (L3 - 2 * (a * b)) ∧ (L_msuF L3 a b).2 = true := by
  have habs := mul_abs_bound a b ha hb
  by_cases hp : a * b = 1073741824
  · have hL3 : L3 < -1 ∨ L3 = -1 := by
      unfold inW32 at hL h
      push_neg at h
      omega
    have hmult : L_multF a b = (MAX_32, true) := by
      simp only [L_multF]
      rw [hp, if_neg (by omega)]
    have hclamp : clamp32 (L3 - 2 * (a * b)) = -2147483648 := by
      rw [hp]
      exact clamp32_of_lt _ (by unfold inW32 at hL; omega)
    rcases hL3 with hL3 | hL3
    · have hsub := L_subF_overflow L3 2147483647 hL (by decide)
        (by unfold inW32; omega)
      constructor
      · unfold L_msu L_mult
        rw [hmult]
        simp only
        show L_sub L3 2147483647 = clamp32 (L3 - 2 * (a * b))
        rw [hsub.1, hclamp, clamp32_of_lt _ (by omega)]
      · simp only [L_msuF]
        rw [hmult]
        simp
    · subst hL3
      constructor
      · unfold L_msu L_mult
        rw [hmult]
        simp only
        rw [hclamp]
        decide
      · simp only [L_msuF]
        rw [hmult]
        simp
  · have h2ab : inW32 (2 * (a * b)) := by unfold inW32; omega
    have hmult : L_multF a b = (2 * (a * b), false) := by
      simp only [L_multF]
      rw [if_pos hp, wrap32_eq_of_inW32 _ (by unfold inW32 at h2ab ⊢; omega)]
      congr 1
      ring
    have hsub := L_subF_overflow L3 (2 * (a * b)) hL h2ab h
    constructor
    · unfold L_msu L_mult
      rw [hmult]
      simp only
      exact hsub.1
    · simp only [L_msuF]
      rw [hmult]
      simp only [Bool.false_or]
      exact hsub.2

/-- Counterexample to claim C2: the overflow indicator is not observable
by the caller.  `add(32767, 1)` overflows and clamps, yet the
process-global `Overflow` flag is left exactly as it was before the
call (here 0, i.e. not set), because the function-local `int Overflow`
of `saturate` shadows the global `Flag Overflow` (basop32.c lines 150
and 256) and the global is never assigned. -/
theorem overflow_flag_counterexample :
    ¬ inW16 (32767 + 1) ∧ add 32767 1 = 32767 ∧
      add_g 0 32767 1 = (32767, 0) ∧ (add_g 0 32767 1).2 ≠ 1 := by
  refine ⟨by decide, by decide, by decide, by decide⟩

/-- Claim C2 as amended: whenever the mathematical result does not fit
the target width, each of `add`, `sub`, `shl` (left direction),
`L_add`, `L_sub`, `L_shl` (left direction), `L_mac` and `L_msu` clamps
the result to the representable extreme and raises a function-local
overflow indicator (the one passed to the `BASOP_CHECK` diagnostic
hook).  The process-global `Overflow` flag observable by the caller is
NOT set: no operator modifies it (each shadows it with a local
variable). -/
theorem saturating_ops_clamp_local_flag :
    (∀ a b : Int, ¬ inW16 (a + b) →
        add a b = clamp16 (a + b) ∧ (addF a b).2 = true) ∧
    (∀ a b : Int, ¬ inW16 (a - b) →
        sub a b = clamp16 (a - b) ∧ (subF a b).2 = true) ∧
    (∀ a n : Int, 0 ≤ n → ¬ inW16 (a * 2 ^ n.toNat) →
        shl a n = clamp16 (a * 2 ^ n.toNat) ∧ (shlF a n).2 = true) ∧
    (∀ a b : Int, inW32 a → inW32 b → ¬ inW32 (a + b) →
        L_add a b = clamp32 (a + b) ∧ (L_addF a b).2 = true) ∧
    (∀ a b : Int, inW32 a → inW32 b → ¬ inW32 (a - b) →
        L_sub a b = clamp32 (a - b) ∧ (L_subF a b).2 = true) ∧
    (∀ L n : Int, 0 < n → inW32 L → L ≠ 0 → ¬ inW32 (L * 2 ^ n.toNat) →
        L_shl L n = clamp32 (L * 2 ^ n.toNat) ∧ (L_shlF L n).2 = true) ∧
    (∀ L3 a b : Int, inW32 L3 → inW16 a → inW16 b → ¬ inW32 (L3 + 2 * (a * b)) →
        L_mac L3 a b = clamp32 (L3 + 2 * (a * b)) ∧ (L_macF L3 a b).2 = true) ∧
    (∀ L3 a b : Int, inW32 L3 → inW16 a → inW16 b → ¬ inW32 (L3 - 2 * (a * b)) →
        L_msu L3 a b = clamp32 (L3 - 2 * (a * b)) ∧ (L_msuF L3 a b).2 = true) ∧
    (∀ ovf a b : Int, (add_g ovf a b).2 = ovf ∧ (sub_g ovf a b).2 = ovf ∧
        (shl_g ovf a b).2 = ovf ∧ (L_add_g ovf a b).2 = ovf ∧
        (L_sub_g ovf a b).2 = ovf ∧ (L_shl_g ovf a b).2 = ovf) ∧
    (∀ ovf L a b : Int, (L_mac_g ovf L a b).2 = ovf) :=
  ⟨addF_overflow, subF_overflow, shlF_overflow, L_addF_overflow,
    L_subF_overflow, L_shlF_overflow, L_macF_overflow, L_msuF_overflow,
    fun _ _ _ => ⟨rfl, rfl, rfl, rfl, rfl, rfl⟩, fun _ _ _ _ => rfl⟩

/-- Witness for the amended C2: concrete saturating calls of `add`,
`L_add` and `L_mac` with their local indicators raised. -/
theorem saturating_ops_clamp_local_flag_witness :
    (add 32767 1 = clamp16 (32767 + 1) ∧ (addF 32767 1).2 = true) ∧
    (L_add 2147483647 1 = clamp32 (2147483647 + 1) ∧
      (L_addF 2147483647 1).2 = true) ∧
    (L_mac 2147483647 181 181 = clamp32 (2147483647 + 2 * (181 * 181)) ∧
      (L_macF 2147483647 181 181).2 = true) :=
  ⟨saturating_ops_clamp_local_flag.1 32767 1 (by decide),
    saturating_ops_clamp_local_flag.2.2.2.1 2147483647 1 (by decide) (by decide)
      (by decide),
    saturating_ops_clamp_local_flag.2.2.2.2.2.2.1 2147483647 181 181
      (by decide) (by decide) (by decide) (by decide)⟩

end Basop

namespace Basop

/-- The normalization loop of `norm_l` (basop32.c lines 1975-1978):
count doublings until the positive value reaches `0x40000000`. -/
def normLoop32 (v : Int) : Nat :=
  if h : 1 ≤ v ∧ v < 1073741824 then normLoop32 (2 * v) + 1 else 0
termination_by (1073741824 - v).toNat
decreasing_by
  obtain ⟨h1, h2⟩ := h
  omega

/-- Function `norm_l` of basop32.c (lines 1955-1989): `0` for input 0,
`31` for input `-1` (`0xffffffff`), otherwise the doubling count of the
input (complemented first when negative). -/
def norm_l (L_var1 : Int) : Int :=
  if L_var1 = 0 then 0
  else if L_var1 = -1 then 31
  else if L_var1 < 0 then (normLoop32 (-L_var1 - 1) : Int)
  else (normLoop32 L_var1 : Int)

/-- Modelled from the spec: the 16-bit minimum basic operator `s_min`
used by the attack detector (part of the basic-operator layer of §4.1;
its definition is in a header that is not under src/). -/
def s_min (a b : Int) : Int := min a b

/-- Modelled from the spec: the 32-bit maximum basic operator `L_max`
used for the decay-or-reset energy-envelope update of §4.3 step 7 (its
definition is not under src/). -/
def L_max (a b : Int) : Int := max a b

/-- Modelled from the spec: the 16-bit bitwise-and operator `s_and`
(its definition is not under src/); `Int.land` is the two's-complement
bitwise and. -/
def s_and (a b : Int) : Int := Int.land a b

/-- Modelled from the spec: `getScaleFactor16` (basop_util, not under
src/) returns the shift headroom of a 16-bit vector -- the number of
left shifts that normalizes its largest-magnitude element (§4.3 step 1:
"dynamic range of the raw input frame"); 0 for an all-zero vector. -/
def getScaleFactor16 (x : List Int) : Int :=
  norm_s (x.foldl (fun m v => max m |v|) 0)

/-- Modelled from the spec: `getScaleFactor16_0` (not under src/), the
variant of `getScaleFactor16` used for the 2-tap filter memory,
returning the full headroom 15 for an all-zero vector. -/
def getScaleFactor16_0 (x : List Int) : Int :=
  let m := x.foldl (fun m v => max m |v|) 0
  if m = 0 then 15 else norm_s m

/-- Modelled from the spec: `getScaleFactor32_0` (not under src/), the
32-bit headroom of a vector, returning 31 for an all-zero vector. -/
def getScaleFactor32_0 (x : List Int) : Int :=
  let m := x.foldl (fun m v => max m |v|) 0
  if m = 0 then 31 else norm_l m

/-- The fields of `LC3_Enc` read by `attack_detector_fx`: sample rate,
frame length, number of 40-sample blocks, hangover threshold.
`enc_rest` stands for all remaining configuration fields (never read
nor written by the attack detector). -/
structure Enc where
  fs : Int
  frame_length : Int
  attdec_nblocks : Int
  attdec_hangover_thresh : Int
  enc_rest : Int
deriving Repr, DecidableEq

/-- The fields of `EncSetup` touched by `attack_detector_fx`: the
attack-handling flag (read only) and the five persistent
attack-detector fields (read/write).  `setup_rest` stands for all
remaining per-channel fields (never touched). -/
structure EncSetup where
  attack_handling : Int
  attdec_filter_mem0 : Int
  attdec_filter_mem1 : Int
  attdec_scaling : Int
  attdec_acc_energy : Int
  attdec_detected : Int
  attdec_position : Int
  setup_rest : Int
deriving Repr, DecidableEq

/-- Lines 30-36 of attack_detector_fx.c: the three candidate scale
factors (input dynamic range, filter-memory dynamic range, halved
accumulated-energy dynamic range), their minimum, minus 2 bits of
resampler headroom. -/
def attdec_new_scaling (enc : Enc) (setup : EncSetup) (input : List Int)
    (input_scaling : Int) : Int :=
  let scales0 := add (getScaleFactor16 (input.take enc.frame_length.toNat))
    input_scaling
  let scales1 := add (getScaleFactor16_0
    [setup.attdec_filter_mem0, setup.attdec_filter_mem1]) setup.attdec_scaling
  let scales2 := shr (add (add (getScaleFactor32_0 [setup.attdec_acc_energy])
    (shl setup.attdec_scaling 1)) 1) 1
  sub (s_min scales0 (s_min scales1 scales2)) 2

/-- Lines 39-46: rescaling of the persistent filter memory (by
`rescale`) and of the accumulated energy (by `2 * rescale`, since it is
a squared quantity) to the new exponent, skipped when `rescale` is 0. -/
def attdec_rescaled (setup : EncSetup) (new_scaling : Int) : Int × Int × Int :=
  let rescale := sub new_scaling setup.attdec_scaling
  if rescale ≠ 0 then
    (shl setup.attdec_filter_mem0 rescale, shl setup.attdec_filter_mem1 rescale,
      L_shl setup.attdec_acc_energy (shl rescale 1))
  else (setup.attdec_filter_mem0, setup.attdec_filter_mem1,
    setup.attdec_acc_energy)

/-- Lines 49-69: downsampling to `L16 = 40 * nblocks` samples at a
16 kHz equivalent rate by summing groups of 2 (32 kHz) or 3 (48 kHz)
samples, each right-shifted by the delta scaling first; `none` models
the `ASSERT` abort for any other sample rate. -/
def attdec_downsample (enc : Enc) (new_scaling input_scaling : Int)
    (input : List Int) (L16 : Nat) : Option (List Int) :=
  if enc.fs = 32000 then
    let d := sub 1 (sub new_scaling input_scaling)
    some ((List.range L16).map fun i =>
      add (shr (input.getD (2 * i) 0) d) (shr (input.getD (2 * i + 1) 0) d))
  else if enc.fs = 48000 then
    let d := sub 2 (sub new_scaling input_scaling)
    some ((List.range L16).map fun i =>
      add (shr (input.getD (3 * i) 0) d)
        (add (shr (input.getD (3 * i + 1) 0) d)
          (shr (input.getD (3 * i + 2) 0) d)))
  else none

/-- Lines 78-82: the 3-tap high-pass filter value at one sample
(coefficients 12288, -16384, 4096). -/
def attdec_hp (x2 x1 x0 : Int) : Int :=
  extract_h (L_mac (L_msu (L_mult x0 12288) x1 16384) x2 4096)

/-- Lines 71-83: with the two filter-memory samples prepended
(`input_16k[-2]` and `input_16k[-1]`), filter the downsampled sequence.
The C loop runs in place over decreasing `i`, so every read of
`input_16k[i-1]` and `input_16k[i-2]` still sees the pre-filter
(downsampled) value; this map computes exactly those values. -/
def attdec_filtered (m0 m1 : Int) (ds : List Int) : List Int :=
  let pre := m0 :: m1 :: ds
  (List.range ds.length).map fun i =>
    attdec_hp (pre.getD i 0) (pre.getD (i + 1) 0) (pre.getD (i + 2) 0)

/-- Lines 85-93: sum-of-squares energy of 40-sample block `j`,
accumulated with `L_mac` from 0 (the `basop_memset` zeroing). -/
def attdec_block_energy (f : List Int) (j : Nat) : Int :=
  (List.range 40).foldl (fun acc i =>
    L_mac acc (f.getD (j * 40 + i) 0) (f.getD (j * 40 + i) 0)) 0

/-- The per-block energies of all `n` blocks. -/
def attdec_block_energies (f : List Int) (n : Nat) : List Int :=
  (List.range n).map (attdec_block_energy f)

/-- Lines 101-106: the scaled block energy (`block_energy[i] / 8.5`),
combining low and high 16-bit halves separately against 30840. -/
def attdec_scale_energy (E : Int) : Int :=
  let l16 := s_and (extract_l (L_shr E 1)) 32767
  let h16 := extract_h E
  L_shr (L_mac0 (L_shr (L_mult0 l16 30840) 15) h16 30840) 2

/-- Lines 99-114: the detection loop over the block energies, carrying
the state `(position, detected, acc_energy)`; `i` is the index of the
current block.  After each comparison the accumulated energy is updated
to `L_max (L_shr acc 2) E` (line 113). -/
def attdec_detect_loop (st : Int × Int × Int) (i : Int)
    (Es : List Int) : Int × Int × Int :=
  match Es with
  | [] => st
  | E :: rest =>
      let tmp := attdec_scale_energy E
      let pos := if tmp > st.2.2 then i else st.1
      let det := if tmp > st.2.2 then 1 else st.2.1
      attdec_detect_loop (pos, det, L_max (L_shr st.2.2 2) E) (i + 1) rest

/-- The accumulated-energy component of the detection loop in
isolation: each block updates the envelope to `L_max (L_shr acc 2) E`. -/
def attdec_acc_fold (acc : Int) (Es : List Int) : Int :=
  Es.foldl (fun a E => L_max (L_shr a 2) E) acc

/-- The downsampled sequence produced by a call of the attack detector
(the contents of `input_16k[0..]` before filtering). -/
def attdec_pipe_ds (enc : Enc) (setup : EncSetup) (input : List Int)
    (input_scaling : Int) : Option (List Int) :=
  attdec_downsample enc (attdec_new_scaling enc setup input input_scaling)
    input_scaling input (i_mult enc.attdec_nblocks 40).toNat

/-- The list of block energies computed by a call of the attack
detector (the contents of `block_energy[0..nblocks-1]`). -/
def attdec_pipe_energies (enc : Enc) (setup : EncSetup) (input : List Int)
    (input_scaling : Int) : Option (List Int) :=
  (attdec_pipe_ds enc setup input input_scaling).map fun ds =>
    attdec_block_energies
      (attdec_filtered
        (attdec_rescaled setup (attdec_new_scaling enc setup input input_scaling)).1
        (attdec_rescaled setup (attdec_new_scaling enc setup input input_scaling)).2.1
        ds)
      enc.attdec_nblocks.toNat

/-- The accumulated energy after the rescaling step (line 45), i.e. the
value the detection loop starts from. -/
def attdec_acc_in (enc : Enc) (setup : EncSetup) (input : List Int)
    (input_scaling : Int) : Int :=
  (attdec_rescaled setup (attdec_new_scaling enc setup input input_scaling)).2.2

/-- Function `attack_detector_fx` of attack_detector_fx.c (lines
13-119), as a function from the encoder configuration, the per-channel
setup, the input frame and the input scaling to the updated
configuration, setup and frame.  `none` models the `ASSERT` abort on an
unsupported sample rate.  The configuration and the input frame are
passed through unchanged: the C function never writes through `enc` or
`input`, and its only writes besides the five `attdec_*` fields of
`setup` go to the caller-owned scratch buffer (where `block_energy` and
`input_16k`, including the two guard slots `input_16k[-2]` and
`input_16k[-1]`, live).  When `attack_handling` is 0 the whole body is
skipped. -/
def attack_detector_fx (enc : Enc) (setup : EncSetup) (input : List Int)
    (input_scaling : Int) : Option (Enc × EncSetup × List Int) :=
  if setup.attack_handling ≠ 0 then
    let new_scaling := attdec_new_scaling enc setup input input_scaling
    let mem := attdec_rescaled setup new_scaling
    let L16 := (i_mult enc.attdec_nblocks 40).toNat
    match attdec_downsample enc new_scaling input_scaling input L16 with
    | none => none
    | some ds =>
        let newMem0 := ds.getD (L16 - 2) 0
        let newMem1 := ds.getD (L16 - 1) 0
        let f := attdec_filtered mem.1 mem.2.1 ds
        let Es := attdec_block_energies f enc.attdec_nblocks.toNat
        let det0 : Int :=
          if setup.attdec_position ≥ enc.attdec_hangover_thresh then 1 else 0
        let r := attdec_detect_loop (-1, det0, mem.2.2) 0 Es
        some (enc,
          { setup with
              attdec_scaling := new_scaling
              attdec_filter_mem0 := newMem0
              attdec_filter_mem1 := newMem1
              attdec_acc_energy := r.2.2
              attdec_detected := r.2.1
              attdec_position := r.1 },
          input)
  else some (enc, setup, input)

end Basop

namespace Basop

theorem detect_loop_acc (Es : List Int) : ∀ (st : Int × Int × Int) (i : Int),
    (attdec_detect_loop st i Es).2.2 = attdec_acc_fold st.2.2 Es := by
  induction Es with
  | nil => intro st i; rfl
  | cons E rest ih =>
      intro st i
      have hstep : attdec_detect_loop st i (E :: rest) =
          attdec_detect_loop
            ((if attdec_scale_energy E > st.2.2 then i else st.1),
              (if attdec_scale_energy E > st.2.2 then 1 else st.2.1),
              L_max (L_shr st.2.2 2) E) (i + 1) rest := rfl
      rw [hstep, ih]
      rfl

theorem acc_fold_concat (acc : Int) (xs : List Int) (e : Int) :
    attdec_acc_fold acc (xs ++ [e]) =
      L_max (L_shr (attdec_acc_fold acc xs) 2) e := by
  unfold attdec_acc_fold
  rw [List.foldl_append]
  rfl

theorem eq_dropLast_append_getLast (l : List Int) (e : Int)
    (h : l.getLast? = some e) : l = l.dropLast ++ [e] := by
  induction l using List.reverseRecOn with
  | nil => simp at h
  | append_singleton xs x _ =>
      rw [List.getLast?_concat] at h
      obtain rfl : x = e := by injection h
      rw [List.dropLast_concat]

/-- Claim C7: for every invocation of the attack detector with attack
handling enabled, the accumulated energy stored in the persistent state
after processing is at least the previous accumulated energy (the
running value against which the last block was compared, i.e. the
envelope just before the final line-113 update) arithmetically
right-shifted by 2 bits, and at least the raw (unscaled) energy of the
last compared block -- the decay-or-reset envelope invariant of the
update `acc = L_max (L_shr acc 2) E`. -/
theorem attdec_energy_envelope (enc : Enc) (setup : EncSetup)
    (input : List Int) (input_scaling : Int) (enc' : Enc) (setup' : EncSetup)
    (input' : List Int) (Es : List Int) (Elast : Int)
    (hon : setup.attack_handling ≠ 0)
    (hE : attdec_pipe_energies enc setup input input_scaling = some Es)
    (hlast : Es.getLast? = some Elast)
    (hrun : attack_detector_fx enc setup input input_scaling =
      some (enc', setup', input')) :
    L_shr (attdec_acc_fold (attdec_acc_in enc setup input input_scaling)
        Es.dropLast) 2 ≤ setup'.attdec_acc_energy ∧
      Elast ≤ setup'.attdec_acc_energy := by
  simp only [attack_detector_fx] at hrun
  rw [if_pos hon] at hrun
  simp only [attdec_pipe_energies, attdec_pipe_ds] at hE
  cases hds : attdec_downsample enc
      (attdec_new_scaling enc setup input input_scaling) input_scaling input
      (i_mult enc.attdec_nblocks 40).toNat with
  | none =>
      rw [hds] at hrun
      exact absurd hrun (by simp)
  | some ds =>
      rw [hds] at hrun hE
      simp only [Option.map_some', Option.some.injEq] at hE
      simp only [Option.some.injEq, Prod.mk.injEq] at hrun
      obtain ⟨-, hsetup, -⟩ := hrun
      have hacc : setup'.attdec_acc_energy =
          attdec_acc_fold (attdec_acc_in enc setup input input_scaling) Es := by
        rw [← hsetup]
        simp only
        rw [detect_loop_acc]
        rw [← hE]
        rfl
      rw [hacc, eq_dropLast_append_getLast Es Elast hlast, acc_fold_concat]
      rw [List.dropLast_concat]
      constructor
      · exact le_max_left _ _
      · exact le_max_right _ _

/-- Claim C8: whenever the per-channel attack-handling flag is 0, a
call to `attack_detector_fx` is a no-op: the persistent state (all
five attack-detector fields and everything else), the configuration
and the input frame are returned exactly as they were. -/
theorem attdec_disabled_noop (enc : Enc) (setup : EncSetup)
    (input : List Int) (input_scaling : Int)
    (hoff : setup.attack_handling = 0) :
    attack_detector_fx enc setup input input_scaling =
      some (enc, setup, input) := by
  unfold attack_detector_fx
  rw [if_neg (by omega)]

/-- Claim C10: `attack_detector_fx` never writes to the raw input frame
or to any encoder-configuration field: the configuration and the frame
come back unchanged, and of the per-channel setup only the five
`attdec_*` fields can differ -- the attack-handling flag and all other
setup fields (`setup_rest`) are returned exactly as they were.  (The
scratch buffer, where `block_energy` and `input_16k` live, is
caller-owned workspace.) -/
theorem attdec_frame_effect (enc : Enc) (setup : EncSetup)
    (input : List Int) (input_scaling : Int) (enc' : Enc)
    (setup' : EncSetup) (input' : List Int)
    (hon : setup.attack_handling ≠ 0)
    (hrun : attack_detector_fx enc setup input input_scaling =
      some (enc', setup', input')) :
    enc' = enc ∧ input' = input ∧
      setup'.attack_handling = setup.attack_handling ∧
      setup'.setup_rest = setup.setup_rest := by
  simp only [attack_detector_fx] at hrun
  rw [if_pos hon] at hrun
  cases hds : attdec_downsample enc
      (attdec_new_scaling enc setup input input_scaling) input_scaling input
      (i_mult enc.attdec_nblocks 40).toNat with
  | none =>
      rw [hds] at hrun
      exact absurd hrun (by simp)
  | some ds =>
      rw [hds] at hrun
      simp only [Option.some.injEq, Prod.mk.injEq] at hrun
      obtain ⟨h1, h2, h3⟩ := hrun
      refine ⟨h1.symm, h3.symm, ?_, ?_⟩
      · rw [← h2]
      · rw [← h2]

/-- Concrete encoder configuration used by the detector witnesses:
32 kHz, 80-sample frame, 1 block, hangover threshold 2. -/
def witEnc : Enc := ⟨32000, 80, 1, 2, 0⟩

/-- Concrete enabled per-channel setup used by the detector witnesses
(zeroed persistent state, as after the external reset). -/
def witSetup : EncSetup := ⟨1, 0, 0, 0, 0, 0, 0, 0⟩

/-- Concrete all-zero 80-sample input frame. -/
def witInput : List Int := List.replicate 80 0

/-- The state produced by running the detector on `witEnc`, `witSetup`,
`witInput`: scaling -2, accumulated energy still 0, no attack
detected. -/
def witSetupOut : EncSetup := ⟨1, 0, 0, -2, 0, 0, -1, 0⟩

/-- Concrete disabled per-channel setup (attack handling 0). -/
def witSetupOff : EncSetup := ⟨0, 7, -3, 5, 999, 1, 2, 42⟩

set_option maxRecDepth 100000 in
/-- Witness for C7 at a zero frame: the stored energy dominates both
the decayed envelope and the last block energy. -/
theorem attdec_energy_envelope_witness :
    L_shr (attdec_acc_fold (attdec_acc_in witEnc witSetup witInput 0)
        (List.dropLast [0])) 2 ≤ witSetupOut.attdec_acc_energy ∧
      (0 : Int) ≤ witSetupOut.attdec_acc_energy :=
  attdec_energy_envelope witEnc witSetup witInput 0 witEnc witSetupOut witInput
    [0] 0 (by decide) (by decide) (by decide) (by decide)

/-- Witness for C8: with attack handling off, a state with arbitrary
nonzero fields passes through untouched. -/
theorem attdec_disabled_noop_witness :
    attack_detector_fx witEnc witSetupOff witInput 0 =
      some (witEnc, witSetupOff, witInput) :=
  attdec_disabled_noop witEnc witSetupOff witInput 0 (by decide)

set_option maxRecDepth 100000 in
/-- Witness for C10 at the concrete zero-frame run. -/
theorem attdec_frame_effect_witness :
    witEnc = witEnc ∧ witInput = witInput ∧
      witSetupOut.attack_handling = witSetup.attack_handling ∧
      witSetupOut.setup_rest = witSetup.setup_rest :=
  attdec_frame_effect witEnc witSetup witInput 0 witEnc witSetupOut witInput
    (by decide) (by decide)

end Basop
